import Mathlib

/-!
Verification of the block-editor HTML ⇄ block conversion pipeline
(`src/lib/clipboard-parser.ts`, `src/lib/html-renderer.ts`, `src/lib/utils.ts`).

The parser walks a DOM tree produced by the browser's `DOMParser` and the
DOMPurify sanitizer.  Both of those are external libraries, so the
string→tree step is not reproduced here: the embedding works on an
`HtmlNode` tree (text and element nodes, the two node kinds the walker
distinguishes; every other DOM node kind yields no blocks in the source and
is omitted).  Tag and attribute names are stored lowercase, as the source
normalises them with `toLowerCase()`.  All JavaScript string operations the
source uses (trim, regex matching, split, replace) are re-implemented over
`List Char` with JavaScript semantics so that everything reduces by `rfl`.
-/

/-! ## JavaScript string primitives -/

/-- The whitespace class used by JavaScript `trim` and by the regex class
`\s`, restricted to the characters that can occur here (ASCII controls and
the no-break space). -/
def isJsSpace (c : Char) : Bool :=
  c = ' ' || c = '\t' || c = '\n' || c = '\r' || c = '\x0b' || c = '\x0c' || c = ' '

/-- JavaScript `\w` word characters: ASCII letters, digits and underscore. -/
def isWordChar (c : Char) : Bool :=
  ('a' ≤ c && c ≤ 'z') || ('A' ≤ c && c ≤ 'Z') || ('0' ≤ c && c ≤ '9') || c = '_'

def trimList (l : List Char) : List Char :=
  ((l.dropWhile isJsSpace).reverse.dropWhile isJsSpace).reverse

/-- JavaScript `String.prototype.trim`. -/
def jsTrim (s : String) : String :=
  ⟨trimList s.data⟩

/-- JavaScript `String.prototype.startsWith`. -/
def jsStartsWith (s p : String) : Bool :=
  p.data.isPrefixOf s.data

/-- JavaScript `String.prototype.toLowerCase` (ASCII range). -/
def jsToLower (s : String) : String :=
  ⟨s.data.map Char.toLower⟩

def containsSubAux (needle : List Char) : List Char → Bool
  | [] => needle.isEmpty
  | c :: t => needle.isPrefixOf (c :: t) || containsSubAux needle t

/-- JavaScript `String.prototype.includes`: `sub` occurs contiguously in `s`. -/
def strContainsSub (s sub : String) : Bool :=
  containsSubAux sub.data s.data

/-- `Array.prototype.join` with a separator. -/
def sJoin (sep : String) : List String → String
  | [] => ""
  | [x] => x
  | x :: y :: t => x ++ sep ++ sJoin sep (y :: t)

/-! ## Block data model (`src/types/blocks.ts`, `createBlock` in `src/lib/utils.ts`)

Each block variant carries the payload fields of its props.  The `id` field
(a fresh uuid minted by `createBlock` and never read by the functions
verified here) is omitted.  Enumerated fields (`level`, `align`, `style`,
`width`, `variant`, `layout`) are kept as the strings the source uses. -/

inductive Block where
  | paragraph (content : String) (align : String)
  | heading (content : String) (level : String) (align : String)
  | image (src : String) (alt : String) (caption : Option String) (width : String)
  | divider (style : String)
  | callout (content : String) (variant : String) (emoji : Option String)
  | code (code : String) (language : String)
  | quote (content : String) (attribution : Option String)
  | columns (layout : String) (columns : List (List String))
deriving DecidableEq, Repr

/-- `isEmptyBlock` from `clipboard-parser.ts`: JavaScript string truthiness
(`!s` is true exactly for the empty string) becomes equality with `""`. -/
def isEmptyBlock : Block → Bool
  | .paragraph content _ => jsTrim content = ""
  | .heading content _ _ => jsTrim content = ""
  | .quote content _ => jsTrim content = ""
  | .callout content _ _ => jsTrim content = ""
  | .code code _ => jsTrim code = ""
  | .image src _ _ _ => src = ""
  | .divider _ => false
  | .columns _ cols => cols.all (fun col => col.isEmpty)

/-! ## DOM tree model -/

inductive HtmlNode where
  | text (s : String)
  | element (tag : String) (attrs : List (String × String)) (children : List HtmlNode)

def childrenOf : HtmlNode → List HtmlNode
  | .text _ => []
  | .element _ _ cs => cs

/-- `Element.getAttribute`, over the attribute association list. -/
def attrOf (n : HtmlNode) (name : String) : Option String :=
  match n with
  | .text _ => none
  | .element _ attrs _ => (attrs.find? (fun a => a.1 = name)).map (fun a => a.2)

mutual

/-- `Node.textContent` of a single node. -/
def textContent : HtmlNode → String
  | .text s => s
  | .element _ _ cs => textContentList cs

def textContentList : List HtmlNode → String
  | [] => ""
  | n :: t => textContent n ++ textContentList t

end

/-- Text-node serialisation escaping used by `innerHTML`/`outerHTML`. -/
def escapeTextData (s : String) : String :=
  ⟨s.data.flatMap (fun c =>
    if c = '&' then "&amp;".data
    else if c = '<' then "&lt;".data
    else if c = '>' then "&gt;".data
    else [c])⟩

/-- Attribute-value serialisation escaping used by `innerHTML`/`outerHTML`. -/
def escapeAttrData (s : String) : String :=
  ⟨s.data.flatMap (fun c =>
    if c = '&' then "&amp;".data
    else if c = '"' then "&quot;".data
    else [c])⟩

/-- The HTML void elements, which serialise without a closing tag. -/
def voidTags : List String :=
  ["area", "base", "br", "col", "embed", "hr", "img", "input", "link",
   "meta", "param", "source", "track", "wbr"]

def renderAttrList : List (String × String) → String
  | [] => ""
  | (name, value) :: t => " " ++ name ++ "=\"" ++ escapeAttrData value ++ "\"" ++ renderAttrList t

mutual

/-- HTML fragment serialisation: `Element.outerHTML` of one node. -/
def serializeNode : HtmlNode → String
  | .text s => escapeTextData s
  | .element tag attrs cs =>
    if voidTags.contains tag then "<" ++ tag ++ renderAttrList attrs ++ ">"
    else "<" ++ tag ++ renderAttrList attrs ++ ">" ++ serializeList cs ++ "</" ++ tag ++ ">"

/-- `Element.innerHTML` of an element with these children. -/
def serializeList : List HtmlNode → String
  | [] => ""
  | n :: t => serializeNode n ++ serializeList t

end

mutual

/-- First element (pre-order document order) in this subtree, the root
included, whose tag satisfies `p`. -/
def findSel (p : String → Bool) : HtmlNode → Option HtmlNode
  | .text _ => none
  | .element tag attrs cs =>
    if p tag then some (.element tag attrs cs) else findSelL p cs

/-- `Element.querySelector` over a list of roots (searches each root and its
descendants, in document order). -/
def findSelL (p : String → Bool) : List HtmlNode → Option HtmlNode
  | [] => none
  | n :: t =>
    match findSel p n with
    | some r => some r
    | none => findSelL p t

end

mutual

/-- All elements (pre-order document order) in this subtree, the root
included, whose tag satisfies `p`. -/
def collectSel (p : String → Bool) : HtmlNode → List HtmlNode
  | .text _ => []
  | .element tag attrs cs =>
    (if p tag then [HtmlNode.element tag attrs cs] else []) ++ collectSelL p cs

/-- `Element.querySelectorAll` over a list of roots. -/
def collectSelL (p : String → Bool) : List HtmlNode → List HtmlNode
  | [] => []
  | n :: t => collectSel p n ++ collectSelL p t

end

mutual

/-- Remove the first matching element from within this subtree (`none` when
the node itself matches and is removed).  Only called on nodes that contain
a match; on match-free nodes it is the identity. -/
def removeFirstSel (p : String → Bool) : HtmlNode → Option HtmlNode
  | .text s => some (.text s)
  | .element tag attrs cs =>
    if p tag then none else some (.element tag attrs (removeFirstSelL p cs))

/-- Remove the first element (pre-order document order) whose tag satisfies
`p` from this list of roots.  Models `clone.querySelector(sel)?.remove()`
performed on a clone of the parent. -/
def removeFirstSelL (p : String → Bool) : List HtmlNode → List HtmlNode
  | [] => []
  | n :: t =>
    if (findSel p n).isSome then
      match removeFirstSel p n with
      | none => t
      | some m => m :: t
    else n :: removeFirstSelL p t

end

/-! ## HTML sanitizer

`sanitizeHtml` in `clipboard-parser.ts` delegates to the external DOMPurify
library, configured with the repository's `ALLOWED_TAGS` / `ALLOWED_ATTRS`
constants, `ALLOW_DATA_ATTR: false` and `ADD_ATTR: ["rel"]`.  DOMPurify
itself is not part of this repository, so its behaviour is modelled from the
spec (§4.1) as a tree transformation. -/

/-- `ALLOWED_TAGS` from `clipboard-parser.ts`. -/
def ALLOWED_TAGS : List String :=
  ["p", "h1", "h2", "h3", "h4", "h5", "h6", "blockquote", "pre", "code",
   "hr", "br", "ul", "ol", "li", "strong", "em", "b", "i", "u", "s",
   "strike", "sub", "sup", "mark", "span", "a", "img", "figure",
   "figcaption", "table", "thead", "tbody", "tr", "th", "td", "cite",
   "footer", "div", "section", "article", "main"]

/-- `ALLOWED_ATTRS` from `clipboard-parser.ts`. -/
def ALLOWED_ATTRS : List String :=
  ["href", "src", "alt", "title", "class", "id", "target", "rel", "width", "height"]

/-- A `javascript:` URI, detected after lowercasing and trimming, the way
the sanitizer normalises candidate URLs. -/
def isJsUri (v : String) : Bool :=
  jsStartsWith (jsToLower (jsTrim v)) "javascript:"

/-- An attribute survives sanitisation when its name is in the allow-list
(this drops event handlers, `style` and, with `ALLOW_DATA_ATTR: false`, all
`data-*`) and it is not an `href`/`src` carrying a `javascript:` URI. -/
def attrAllowed (a : String × String) : Bool :=
  ALLOWED_ATTRS.contains a.1 && !((a.1 = "href" || a.1 = "src") && isJsUri a.2)

/-- A link carrying `target="_blank"` with no `rel` attribute yet gains
`rel="noopener"`. -/
def needsNoopener (tag : String) (kept : List (String × String)) : Bool :=
  tag = "a" && kept.any (fun a => a.1 = "target" && a.2 = "_blank")
    && !(kept.any (fun a => a.1 = "rel"))

/-- Modelled from the spec: DOMPurify's attribute cleaning under this
configuration — filter by the allow-list, strip `javascript:` URIs from
`href`/`src`, and inject `rel="noopener"` into `target="_blank"` links. -/
def sanitizeAttrs (tag : String) (attrs : List (String × String)) : List (String × String) :=
  if needsNoopener tag (attrs.filter attrAllowed)
  then attrs.filter attrAllowed ++ [("rel", "noopener")]
  else attrs.filter attrAllowed

mutual

/-- Modelled from the spec: DOMPurify sanitisation of one node under the
repository's configuration.  Elements whose tag is outside `ALLOWED_TAGS`
(notably `script`) are stripped entirely, including their payload text
(§4.1: "stripped entirely, including their dangerous payload text"). -/
def sanitizeNode : HtmlNode → Option HtmlNode
  | .text s => some (.text s)
  | .element tag attrs cs =>
    if ALLOWED_TAGS.contains tag
    then some (.element tag (sanitizeAttrs tag attrs) (sanitizeList cs))
    else none

/-- Modelled from the spec: `sanitizeHtml` as a transformation of the parsed
node list (DOMPurify parses, cleans the tree, and re-serialises; the
string-level round trip is external). -/
def sanitizeList : List HtmlNode → List HtmlNode
  | [] => []
  | n :: t =>
    match sanitizeNode n with
    | none => sanitizeList t
    | some m => m :: sanitizeList t

end

/-! ## Language extraction and URL validation -/

/-- One attempt of the regex `(?:language|lang|highlight)-(\w+)` at the
current position: the alternatives are tried in order, and a successful
alternative must be followed by `-` and at least one word character; the
capture group is the maximal word-character run. -/
def langAltAt (cs : List Char) : Option (List Char) :=
  (["language-", "lang-", "highlight-"].firstM (fun p =>
    if p.data.isPrefixOf cs then
      let w := (cs.drop p.data.length).takeWhile isWordChar
      if w.isEmpty then none else some w
    else none))

/-- Regex search of `LANGUAGE_CLASS_REGEX` over the class string: positions
are tried left to right. -/
def langMatch : List Char → Option (List Char)
  | [] => none
  | c :: t =>
    match langAltAt (c :: t) with
    | some w => some w
    | none => langMatch t

/-- `extractLanguageFromClass` from `clipboard-parser.ts`: first capture of
`(?:language|lang|highlight)-(\w+)` against `element.className`, defaulting
to `"plaintext"` (`element.className` is `""` when the attribute is absent). -/
def extractLanguageFromClass (e : HtmlNode) : String :=
  match langMatch ((attrOf e "class").getD "").data with
  | some w => ⟨w⟩
  | none => "plaintext"

/-- The scheme of an absolute URL: one letter followed by letters, digits,
`+`, `-` or `.`, up to a `:`.  Models when the external WHATWG `new URL`
constructor succeeds and what `url.protocol` reports (lowercased scheme plus
`":"`); strings without such a scheme make the constructor throw. -/
def urlSchemeAux (acc : List Char) : List Char → Option (List Char)
  | [] => none
  | c :: t =>
    if c = ':' then some acc.reverse
    else if ('a' ≤ c && c ≤ 'z') || ('A' ≤ c && c ≤ 'Z') || ('0' ≤ c && c ≤ '9')
        || c = '+' || c = '-' || c = '.'
    then urlSchemeAux (c :: acc) t
    else none

def urlScheme (s : String) : Option String :=
  match s.data with
  | [] => none
  | c :: t =>
    if ('a' ≤ c && c ≤ 'z') || ('A' ≤ c && c ≤ 'Z')
    then (urlSchemeAux [c] t).map (fun l => ⟨l⟩)
    else none

/-- `isValidUrl` from `clipboard-parser.ts`: accepts `data:` URLs outright,
otherwise requires `new URL` to succeed with an `http:` or `https:`
protocol. -/
def isValidUrl (str : String) : Bool :=
  if jsStartsWith str "data:" then true
  else
    match urlScheme str with
    | some sch => jsToLower sch = "http" || jsToLower sch = "https"
    | none => false

/-! ## Element-specific block extraction (`clipboard-parser.ts`) -/

/-- Tag category sets from `clipboard-parser.ts`. -/
def CONTAINER_TAGS : List String := ["div", "section", "article", "main"]

def INLINE_TAGS : List String := ["span", "a", "strong", "em", "b", "i", "u"]

def LIST_TAGS : List String := ["ul", "ol"]

def TABLE_TAGS : List String := ["table"]

/-- `processHeading`: heading block from the element's `innerHTML` at the
given level (alignment comes from `createBlock`'s defaults). -/
def processHeading (e : HtmlNode) (level : String) : List Block :=
  [Block.heading (serializeList (childrenOf e)) level "left"]

/-- The selector `"cite, footer"`. -/
def isCiteFooter (tag : String) : Bool :=
  tag = "cite" || tag = "footer"

/-- `processBlockquote`: if a nested `cite` or `footer` exists, its trimmed
text becomes the attribution and the content is the `innerHTML` of a clone
with that element removed; otherwise the full `innerHTML` with no
attribution. -/
def processBlockquote (e : HtmlNode) : List Block :=
  match findSelL isCiteFooter (childrenOf e) with
  | some c =>
    [Block.quote (serializeList (removeFirstSelL isCiteFooter (childrenOf e)))
      (some (jsTrim (textContent c)))]
  | none => [Block.quote (serializeList (childrenOf e)) none]

/-- JavaScript `a || b` on strings: `a` unless it is empty. -/
def strOrElse (a b : String) : String :=
  if a = "" then b else a

/-- `processPreBlock`: `codeEl?.textContent || element.textContent || ""`
and language from the `code` child's class if present, else the `pre`'s. -/
def processPreBlock (e : HtmlNode) : List Block :=
  let codeEl := findSelL (fun t => t = "code") (childrenOf e)
  let code :=
    match codeEl with
    | some c => strOrElse (textContent c) (strOrElse (textContent e) "")
    | none => strOrElse (textContent e) ""
  let language := extractLanguageFromClass (codeEl.getD e)
  [Block.code code language]

/-- `processImage`: an image block when `src` is non-empty and valid,
nothing otherwise. -/
def processImage (e : HtmlNode) : List Block :=
  let src := (attrOf e "src").getD ""
  let alt := (attrOf e "alt").getD ""
  if src ≠ "" && isValidUrl src then [Block.image src alt none "large"] else []

/-- `processTable`: flatten each `tr` into one paragraph of its non-empty
trimmed `th`/`td` cell texts joined by `" | "`; rows with no cells or only
empty cells contribute nothing. -/
def processTable (e : HtmlNode) : List Block :=
  (collectSelL (fun t => t = "tr") (childrenOf e)).flatMap (fun row =>
    let cells := collectSelL (fun t => t = "th" || t = "td") (childrenOf row)
    if cells.length > 0 then
      let cellContents :=
        (cells.map (fun cell => strOrElse (jsTrim (textContent cell)) "")).filter
          (fun s => s.length > 0)
      if cellContents.length > 0 then
        [Block.paragraph (sJoin " | " cellContents) "left"]
      else []
    else [])

mutual

/-- `processNode`: text nodes with non-whitespace content become paragraphs
of the trimmed text; element nodes are classified per tag, first match
wins.  `parent` is the tag of `node.parentElement` ("body" at the top
level).  The source splits the element classification into `processElement`
and `processFigure`; those are inlined here so the recursion is structural,
and are recovered below as standalone definitions equal by `rfl`
(`processNode_element_eq` and `processFigure_eq`). -/
def processNode (parent : String) : HtmlNode → List Block
  | .text s =>
    let t := jsTrim s
    if t ≠ "" then [Block.paragraph t "left"] else []
  | .element tag attrs cs =>
    if tag = "h1" || tag = "h2" || tag = "h3" then
      processHeading (.element tag attrs cs) tag
    else if tag = "h4" || tag = "h5" || tag = "h6" then
      processHeading (.element tag attrs cs) "h3"
    else if tag = "p" then
      [Block.paragraph (serializeList cs) "left"]
    else if tag = "blockquote" then
      processBlockquote (.element tag attrs cs)
    else if tag = "pre" then
      processPreBlock (.element tag attrs cs)
    else if tag = "code" && parent ≠ "pre" then
      [Block.paragraph (serializeNode (.element tag attrs cs)) "left"]
    else if tag = "hr" then
      [Block.divider "solid"]
    else if tag = "img" then
      processImage (.element tag attrs cs)
    else if tag = "figure" then
      match findSelL (fun t => t = "img") cs with
      | some img =>
        let src := (attrOf img "src").getD ""
        let alt := (attrOf img "alt").getD ""
        let caption := (findSelL (fun t => t = "figcaption") cs).map
          (fun f => jsTrim (textContent f))
        if src ≠ "" && isValidUrl src then [Block.image src alt caption "large"]
        else processChildren tag cs
      | none => processChildren tag cs
    else if LIST_TAGS.contains tag then
      [Block.paragraph (serializeNode (.element tag attrs cs)) "left"]
    else if TABLE_TAGS.contains tag then
      processTable (.element tag attrs cs)
    else if CONTAINER_TAGS.contains tag then
      processChildren tag cs
    else if INLINE_TAGS.contains tag then
      let content := serializeNode (.element tag attrs cs)
      if jsTrim content ≠ "" then [Block.paragraph content "left"] else []
    else if tag = "br" then
      []
    else
      let content := jsTrim (serializeList cs)
      if content ≠ "" then [Block.paragraph content "left"] else []

/-- `processChildren`: recursively process each child and splice the
results. -/
def processChildren (parentTag : String) : List HtmlNode → List Block
  | [] => []
  | n :: t => processNode parentTag n ++ processChildren parentTag t

end

/-- `processFigure`: a single image block when a nested `img` has a valid
`src` (caption from `figcaption` if present); otherwise fall through to the
children. -/
def processFigure : HtmlNode → List Block
  | .text _ => []
  | .element tag _ cs =>
    match findSelL (fun t => t = "img") cs with
    | some img =>
      let src := (attrOf img "src").getD ""
      let alt := (attrOf img "alt").getD ""
      let caption := (findSelL (fun t => t = "figcaption") cs).map
        (fun f => jsTrim (textContent f))
      if src ≠ "" && isValidUrl src then [Block.image src alt caption "large"]
      else processChildren tag cs
    | none => processChildren tag cs

/-- `processElement`: the per-tag classification exactly as in the source. -/
def processElement (parent : String) : HtmlNode → List Block
  | .text _ => []
  | .element tag attrs cs =>
    if tag = "h1" || tag = "h2" || tag = "h3" then
      processHeading (.element tag attrs cs) tag
    else if tag = "h4" || tag = "h5" || tag = "h6" then
      processHeading (.element tag attrs cs) "h3"
    else if tag = "p" then
      [Block.paragraph (serializeList cs) "left"]
    else if tag = "blockquote" then
      processBlockquote (.element tag attrs cs)
    else if tag = "pre" then
      processPreBlock (.element tag attrs cs)
    else if tag = "code" && parent ≠ "pre" then
      [Block.paragraph (serializeNode (.element tag attrs cs)) "left"]
    else if tag = "hr" then
      [Block.divider "solid"]
    else if tag = "img" then
      processImage (.element tag attrs cs)
    else if tag = "figure" then
      processFigure (.element tag attrs cs)
    else if LIST_TAGS.contains tag then
      [Block.paragraph (serializeNode (.element tag attrs cs)) "left"]
    else if TABLE_TAGS.contains tag then
      processTable (.element tag attrs cs)
    else if CONTAINER_TAGS.contains tag then
      processChildren tag cs
    else if INLINE_TAGS.contains tag then
      let content := serializeNode (.element tag attrs cs)
      if jsTrim content ≠ "" then [Block.paragraph content "left"] else []
    else if tag = "br" then
      []
    else
      let content := jsTrim (serializeList cs)
      if content ≠ "" then [Block.paragraph content "left"] else []

/-- `parseHtmlToBlocks`: sanitize, walk the body's children, filter empty
blocks.  The input is the node list the external `DOMParser` produces for
the (raw) HTML string; the guard returning `[]` for whitespace-only input
corresponds to the empty node list. -/
def parseHtmlToBlocks (body : List HtmlNode) : List Block :=
  ((sanitizeList body).flatMap (processNode "body")).filter
    (fun b => !isEmptyBlock b)

/-- The element branch of `processNode` is exactly `processElement`. -/
theorem processNode_element_eq (parent tag : String) (attrs : List (String × String))
    (cs : List HtmlNode) :
    processNode parent (.element tag attrs cs) = processElement parent (.element tag attrs cs) :=
  rfl

/-- The figure branch of `processNode` is exactly `processFigure`. -/
theorem processFigure_eq (tag : String) (attrs : List (String × String))
    (cs : List HtmlNode) :
    processFigure (.element tag attrs cs)
      = match findSelL (fun t => t = "img") cs with
        | some img =>
          let src := (attrOf img "src").getD ""
          let alt := (attrOf img "alt").getD ""
          let caption := (findSelL (fun t => t = "figcaption") cs).map
            (fun f => jsTrim (textContent f))
          if src ≠ "" && isValidUrl src then [Block.image src alt caption "large"]
          else processChildren tag cs
        | none => processChildren tag cs :=
  rfl

/-! ## Plain-text parsing (`parsePlainTextToBlocks` in `clipboard-parser.ts`) -/

/-- `escapeHtml` from `clipboard-parser.ts`: single-pass replacement of the
five HTML special characters (the renderer's `escapeHtml`, a chain of five
global `replace` calls, computes the same character-wise map since later
replacements never touch the entities introduced by earlier ones). -/
def escapeHtml (s : String) : String :=
  ⟨s.data.flatMap (fun c =>
    if c = '&' then "&amp;".data
    else if c = '<' then "&lt;".data
    else if c = '>' then "&gt;".data
    else if c = Char.ofNat 34 then "&quot;".data
    else if c = Char.ofNat 39 then "&#39;".data
    else [c])⟩

/-- `escaped.replace(/\r?\n/g, "<br>")`: each newline, optionally preceded
by a carriage return, becomes a literal `<br>`. -/
def brReplaceL : List Char → List Char
  | [] => []
  | '\r' :: '\n' :: t => "<br>".data ++ brReplaceL t
  | '\n' :: t => "<br>".data ++ brReplaceL t
  | c :: t => c :: brReplaceL t

def brReplace (s : String) : String :=
  ⟨brReplaceL s.data⟩

/-- Index of the last occurrence of `c` in the list. -/
def lastIdxOf (c : Char) : List Char → Option Nat
  | [] => none
  | x :: t =>
    match lastIdxOf c t with
    | some j => some (j + 1)
    | none => if x = c then some 0 else none

/-- Index of the last adjacent `"\r\n"` pair in the list. -/
def lastPairRN : List Char → Option Nat
  | [] => none
  | [_] => none
  | x :: y :: t =>
    match lastPairRN (y :: t) with
    | some j => some (j + 1)
    | none => if x = '\r' && y = '\n' then some 0 else none

/-- One attempt of `PARAGRAPH_BOUNDARY_REGEX` (`/\n\s*\n|\r\n\s*\r\n/`) at
the current position, returning the length of the match.  The alternatives
are mutually exclusive (the first requires a leading `\n`, the second a
leading `\r`); the greedy `\s*` with backtracking means the match extends to
the last `\n` (resp. `\r\n`) inside the maximal whitespace run. -/
def matchBoundaryAt : List Char → Option Nat
  | '\n' :: rest => (lastIdxOf '\n' (rest.takeWhile isJsSpace)).map (fun m => m + 2)
  | '\r' :: '\n' :: rest => (lastPairRN (rest.takeWhile isJsSpace)).map (fun m => m + 4)
  | _ => none

/-- JavaScript `String.prototype.split` on `PARAGRAPH_BOUNDARY_REGEX`:
leftmost matches are taken left to right, the text between matches becomes
the segments (including empty leading/trailing segments, later filtered
out).  `fuel` only drives structural recursion: every step consumes at
least one character, so `fuel = length` never runs out. -/
def splitLoop : Nat → List Char → List Char → List String
  | _, [], acc => [⟨acc.reverse⟩]
  | 0, l, acc => [⟨acc.reverse ++ l⟩]
  | fuel + 1, c :: t, acc =>
    match matchBoundaryAt (c :: t) with
    | some n => (⟨acc.reverse⟩ : String) :: splitLoop fuel ((c :: t).drop n) []
    | none => splitLoop fuel t (c :: acc)

def splitParagraphBoundary (text : String) : List String :=
  splitLoop text.data.length text.data []

/-- `parsePlainTextToBlocks` from `clipboard-parser.ts`: split at paragraph
boundaries, trim, drop empty segments, escape the five HTML special
characters first and then replace remaining newlines by `<br>`, wrapping
each surviving segment as a paragraph block. -/
def parsePlainTextToBlocks (text : String) : List Block :=
  if jsTrim text = "" then []
  else
    (((splitParagraphBoundary text).map jsTrim).filter (fun p => p.length > 0)).map
      (fun para => Block.paragraph (brReplace (escapeHtml para)) "left")

/-! ## Block-to-HTML renderer (`src/lib/html-renderer.ts`, layout helpers in
`src/lib/utils.ts`) -/

/-- `getColumnWidths` from `utils.ts` (unknown layouts fall back to `[1, 1]`). -/
def getColumnWidths (layout : String) : List Nat :=
  if layout = "1-1" then [1, 1]
  else if layout = "1-2" then [1, 2]
  else if layout = "2-1" then [2, 1]
  else if layout = "1-1-1" then [1, 1, 1]
  else [1, 1]

/-- The string JavaScript produces for the float `(w / total) * 100`
followed by `"%"`, for the weight/total pairs reachable from
`getColumnWidths` (the renderer tests pin these exact strings:
`50%`, `33.33333333333333%`, `66.66666666666666%`). -/
def flexPct (w total : Nat) : String :=
  if w * 2 = total * 1 then "50%"
  else if w * 3 = total * 1 then "33.33333333333333%"
  else if w * 3 = total * 2 then "66.66666666666666%"
  else if w = total then "100%"
  else ""

/-- `getColumnFlexBasis` from `utils.ts`. -/
def getColumnFlexBasis (layout : String) : List String :=
  let widths := getColumnWidths layout
  let total := widths.foldr (fun a b => a + b) 0
  widths.map (fun w => flexPct w total)

/-- JavaScript truthiness of an optional string (`undefined` and `""` are
falsy). -/
def jsTruthy : Option String → Bool
  | none => false
  | some s => s ≠ ""

def getAlignmentClass (align : String) : String :=
  if align = "left" then "text-left"
  else if align = "center" then "text-center"
  else if align = "right" then "text-right"
  else "undefined"

def renderParagraph (content align : String) : String :=
  "<p class=\"text-base leading-relaxed mb-4 " ++ getAlignmentClass align ++ "\">"
    ++ content ++ "</p>"

def renderHeading (content level align : String) : String :=
  let levelClass :=
    if level = "h1" then "text-4xl font-display font-normal tracking-tight mb-6 mt-8"
    else if level = "h2" then "text-2xl font-semibold tracking-tight mb-4 mt-6"
    else if level = "h3" then "text-xl font-semibold mb-3 mt-4"
    else "undefined"
  "<" ++ level ++ " class=\"" ++ levelClass ++ " " ++ getAlignmentClass align ++ "\">"
    ++ content ++ "</" ++ level ++ ">"

def renderQuote (content : String) (attribution : Option String) : String :=
  let attributionHtml :=
    if jsTruthy attribution then
      "<cite class=\"block mt-2 text-sm text-gray-500 not-italic\">— "
        ++ attribution.getD "" ++ "</cite>"
    else ""
  "<blockquote class=\"border-l-4 border-gray-300 pl-4 py-2 my-4 italic text-gray-700\">\n  "
    ++ content ++ "\n  " ++ attributionHtml ++ "\n</blockquote>"

def renderImage (src alt : String) (caption : Option String) (width : String) : String :=
  let widthClass :=
    if width = "small" then "max-w-xs"
    else if width = "medium" then "max-w-md"
    else if width = "large" then "max-w-2xl"
    else if width = "full" then "w-full"
    else "undefined"
  let captionHtml :=
    if jsTruthy caption then
      "<figcaption class=\"mt-2 text-sm text-gray-500 text-center\">"
        ++ caption.getD "" ++ "</figcaption>"
    else ""
  "<figure class=\"my-4 " ++ widthClass ++ "\">\n  <img src=\"" ++ escapeHtml src
    ++ "\" alt=\"" ++ escapeHtml alt ++ "\" class=\"rounded-lg shadow-sm w-full\" />\n  "
    ++ captionHtml ++ "\n</figure>"

def renderCode (code language : String) : String :=
  "<pre class=\"bg-gray-900 text-gray-100 p-4 rounded-lg my-4 overflow-x-auto\"><code class=\"language-"
    ++ escapeHtml language ++ " font-mono text-sm\">" ++ escapeHtml code ++ "</code></pre>"

def renderDivider (style : String) : String :=
  let styleClass :=
    if style = "solid" then "border-solid"
    else if style = "dashed" then "border-dashed"
    else if style = "dotted" then "border-dotted"
    else "undefined"
  "<hr class=\"my-8 border-t border-gray-300 " ++ styleClass ++ "\" />"

def renderCallout (content variant : String) (emoji : Option String) : String :=
  let variantClass :=
    if variant = "info" then "bg-blue-50 border-blue-200 text-blue-800"
    else if variant = "warning" then "bg-yellow-50 border-yellow-200 text-yellow-800"
    else if variant = "success" then "bg-green-50 border-green-200 text-green-800"
    else if variant = "error" then "bg-red-50 border-red-200 text-red-800"
    else "undefined"
  let emojiHtml :=
    if jsTruthy emoji then "<span class=\"mr-2 text-lg\">" ++ emoji.getD "" ++ "</span>"
    else ""
  "<aside class=\"flex items-start p-4 my-4 rounded-lg border " ++ variantClass ++ "\">\n  "
    ++ emojiHtml ++ "\n  <div class=\"flex-1\">" ++ content ++ "</div>\n</aside>"

/-- One column `<div>` of `renderColumns`: `columnContent || '<p ...>Empty
column</p>'` shows the placeholder exactly when the joined content is the
empty string. -/
def renderColumnDiv (basis content : String) : String :=
  "<div class=\"px-2\" style=\"flex-basis: " ++ basis ++ "; min-width: 0;\">\n  "
    ++ (if content = "" then "<p class=\"text-gray-400 italic\">Empty column</p>" else content)
    ++ "\n</div>"

mutual

/-- `blockToHtml` from `html-renderer.ts`.  The source recurses through the
`getBlock` callback and can diverge on cyclic documents (a stack overflow
in JavaScript); `fuel` bounds that recursion, and is only consumed when
descending into a `columns` block.  Each theorem below holds for every
fuel value. -/
def blockToHtml : Nat → Block → (String → Option Block) → String
  | _, .paragraph content align, _ => renderParagraph content align
  | _, .heading content level align, _ => renderHeading content level align
  | _, .quote content attribution, _ => renderQuote content attribution
  | _, .image src alt caption width, _ => renderImage src alt caption width
  | _, .code code language, _ => renderCode code language
  | _, .divider style, _ => renderDivider style
  | _, .callout content variant emoji, _ => renderCallout content variant emoji
  | fuel + 1, .columns layout cols, getBlock => renderColumns fuel layout cols getBlock
  | 0, .columns _ _, _ => ""

/-- `renderColumns` from `html-renderer.ts`. -/
def renderColumns (fuel : Nat) (layout : String) (columns : List (List String))
    (getBlock : String → Option Block) : String :=
  let flexBasis := getColumnFlexBasis layout
  "<div class=\"flex flex-wrap -mx-2 my-4\">\n"
    ++ sJoin "\n" (renderColumnList fuel getBlock flexBasis 0 columns)
    ++ "\n</div>"

/-- The per-column map inside `renderColumns` (`columns.map((col, index) => ...)`),
with `basis = flexBasis[index] || "50%"`. -/
def renderColumnList (fuel : Nat) (getBlock : String → Option Block)
    (flexBasis : List String) (index : Nat) : List (List String) → List String
  | [] => []
  | col :: rest =>
    renderColumnDiv (strOrElse ((flexBasis.get? index).getD "") "50%")
        (columnContent fuel getBlock col)
      :: renderColumnList fuel getBlock flexBasis (index + 1) rest

/-- The `columnContent` computation inside `renderColumns`: render each
child id (empty string when `getBlock` misses), drop the empty strings
(`filter(Boolean)`), join with newlines. -/
def columnContent (fuel : Nat) (getBlock : String → Option Block) (ids : List String) : String :=
  sJoin "\n" ((renderChildList fuel getBlock ids).filter (fun s => s ≠ ""))

/-- `columnBlockIds.map(blockId => { const block = getBlock(blockId); if
(!block) return ""; return blockToHtml(block, getBlock); })`. -/
def renderChildList (fuel : Nat) (getBlock : String → Option Block) : List String → List String
  | [] => []
  | id :: t =>
    (match getBlock id with
      | none => ""
      | some b => blockToHtml fuel b getBlock) :: renderChildList fuel getBlock t

end

/-- `BlockDocument` from `src/types/blocks.ts`; the block map
`Record<string, Block>` becomes an association list with unique keys. -/
structure BlockDocument where
  id : String
  title : String
  blocks : List (String × Block)
  rootBlockIds : List String
  createdAt : String
  updatedAt : String

/-- The `getBlock` closure of `documentToHtml`. -/
def getBlockOf (doc : BlockDocument) (id : String) : Option Block :=
  (doc.blocks.find? (fun a => a.1 = id)).map (fun a => a.2)

/-- `documentToHtml` from `html-renderer.ts`: render the root blocks in
`rootBlockIds` order, mapping missing ids to `""`, dropping empty strings,
joining with newlines. -/
def documentToHtml (fuel : Nat) (doc : BlockDocument) : String :=
  sJoin "\n"
    ((doc.rootBlockIds.map (fun blockId =>
      match getBlockOf doc blockId with
      | none => ""
      | some b => blockToHtml fuel b (getBlockOf doc))).filter (fun s => s ≠ ""))

/-! ## Concrete scenario inputs

Each `...Body` is the child list of the `<body>` of the DOM tree the
external `DOMParser` produces for the quoted HTML string (standard HTML
parsing; `DOMParser` wraps the bare `<tr>` of the C5 table in a `tbody`). -/

/-- DOM of `<h1>Title</h1><p>Intro</p><hr><pre><code class="language-js">x=1</code></pre>`. -/
def c3Body : List HtmlNode :=
  [ .element "h1" [] [.text "Title"],
    .element "p" [] [.text "Intro"],
    .element "hr" [] [],
    .element "pre" [] [.element "code" [("class", "language-js")] [.text "x=1"]] ]

/-- DOM of `<blockquote><p>Wisdom</p><footer>— Sage</footer></blockquote>`. -/
def c4Body : List HtmlNode :=
  [ .element "blockquote" []
      [.element "p" [] [.text "Wisdom"], .element "footer" [] [.text "— Sage"]] ]

/-- The children of the blockquote in `c4Body`. -/
def c4Kids : List HtmlNode :=
  [.element "p" [] [.text "Wisdom"], .element "footer" [] [.text "— Sage"]]

/-- DOM of `<table><tr><td>A</td><td></td><td>B</td></tr></table>`. -/
def c5Body : List HtmlNode :=
  [ .element "table" []
      [.element "tbody" []
        [.element "tr" []
          [.element "td" [] [.text "A"], .element "td" [] [],
           .element "td" [] [.text "B"]]]] ]

/-- DOM of `<img src="ftp://bad" alt="x">`. -/
def c6Body : List HtmlNode :=
  [.element "img" [("src", "ftp://bad"), ("alt", "x")] []]

/-- DOM of `<img src="ftp://bad" alt="x"><p>x</p>`: the invalid image has a
sibling that must still be processed. -/
def c6SiblingBody : List HtmlNode :=
  [.element "img" [("src", "ftp://bad"), ("alt", "x")] [],
   .element "p" [] [.text "x"]]

/-- DOM of `<p>Hi</p><script>Hi</script>`: the script's payload text also
occurs as legitimate paragraph content. -/
def c1CounterexampleBody : List HtmlNode :=
  [.element "p" [] [.text "Hi"], .element "script" [] [.text "Hi"]]

/-- The rich-text (or code) content field of a block, for stating the
payload-containment property. -/
def blockContent : Block → String
  | .paragraph content _ => content
  | .heading content _ _ => content
  | .quote content _ => content
  | .callout content _ _ => content
  | .code code _ => code
  | _ => ""

/-- C3: parsing `<h1>Title</h1><p>Intro</p><hr><pre><code
class="language-js">x=1</code></pre>` yields exactly four blocks, in order:
heading(h1, "Title"), paragraph("Intro"), divider(solid), code(language
"js", code "x=1"). -/
theorem claim_C3_scenario :
    parseHtmlToBlocks c3Body =
      [Block.heading "Title" "h1" "left", Block.paragraph "Intro" "left",
       Block.divider "solid", Block.code "x=1" "js"] :=
  rfl

/-- C4: for every blockquote, if a nested `cite` or `footer` element exists
(first in document order), its trimmed text content becomes the quote's
attribution and the content is the inner markup with that element removed;
with no such element the attribution is unset and the content is the full
inner markup.  In particular
`<blockquote><p>Wisdom</p><footer>— Sage</footer></blockquote>` yields a
quote with attribution "— Sage" and content `<p>Wisdom</p>`, the footer
markup excluded. -/
theorem claim_C4_blockquote :
    (∀ (tag : String) (attrs : List (String × String)) (cs : List HtmlNode) (c : HtmlNode),
      findSelL isCiteFooter cs = some c →
        processBlockquote (.element tag attrs cs)
          = [Block.quote (serializeList (removeFirstSelL isCiteFooter cs))
              (some (jsTrim (textContent c)))])
    ∧ (∀ (tag : String) (attrs : List (String × String)) (cs : List HtmlNode),
      findSelL isCiteFooter cs = none →
        processBlockquote (.element tag attrs cs) = [Block.quote (serializeList cs) none])
    ∧ parseHtmlToBlocks c4Body = [Block.quote "<p>Wisdom</p>" (some "— Sage")] := by
  refine ⟨?_, ?_, rfl⟩
  · intro tag attrs cs c h
    simp [processBlockquote, childrenOf, h]
  · intro tag attrs cs h
    simp [processBlockquote, childrenOf, h]

/-- Witness for C4 at the concrete scenario blockquote. -/
theorem claim_C4_blockquote_witness :
    processBlockquote (.element "blockquote" [] c4Kids)
      = [Block.quote (serializeList (removeFirstSelL isCiteFooter c4Kids))
          (some (jsTrim (textContent (HtmlNode.element "footer" [] [.text "— Sage"]))))] :=
  claim_C4_blockquote.1 "blockquote" [] c4Kids
    (HtmlNode.element "footer" [] [.text "— Sage"]) rfl

theorem strOrElse_empty (s : String) : strOrElse s "" = s := by
  unfold strOrElse
  split <;> simp_all

theorem flatMap_eq_filterMap {α β : Type} (f : α → List β) (g : α → Option β)
    (h : ∀ a, f a = (g a).toList) (l : List α) : l.flatMap f = l.filterMap g := by
  induction l with
  | nil => rfl
  | cons a t ih => cases hg : g a <;> simp [List.filterMap_cons, hg, h a, ih]

/-- C5: every table is flattened row-wise: each `tr` yields at most one
paragraph whose content is the row's trimmed `th`/`td` cell texts with the
empty cells dropped, joined by `" | "`; a row whose cells are all empty
yields no block.  In particular
`<table><tr><td>A</td><td></td><td>B</td></tr></table>` yields exactly one
paragraph with content "A | B". -/
theorem claim_C5_table :
    (∀ (tag : String) (attrs : List (String × String)) (cs : List HtmlNode),
      processTable (.element tag attrs cs)
        = (collectSelL (fun t => t = "tr") cs).filterMap (fun row =>
            let cells := ((collectSelL (fun t => t = "th" || t = "td") (childrenOf row)).map
              (fun cell => jsTrim (textContent cell))).filter (fun s => s.length > 0)
            if cells.isEmpty then none
            else some (Block.paragraph (sJoin " | " cells) "left")))
    ∧ parseHtmlToBlocks c5Body = [Block.paragraph "A | B" "left"] := by
  refine ⟨?_, rfl⟩
  intro tag attrs cs
  unfold processTable
  refine flatMap_eq_filterMap _ _ (fun row => ?_) _
  simp only [strOrElse_empty]
  cases h0 : collectSelL (fun t => t = "th" || t = "td") (childrenOf row) with
  | nil => simp
  | cons c crest =>
    cases hco : ((c :: crest).map (fun cell => jsTrim (textContent cell))).filter
        (fun s => s.length > 0) with
    | nil => simp [hco]
    | cons x xs => simp [hco]

/-- C6: an `img` element whose `src` fails URL validation (`isValidUrl`:
a `data:` URI, or an absolute URL whose scheme is `http`/`https`) produces
zero blocks — it is silently dropped with no error, and sibling nodes are
still processed.  In particular `<img src="ftp://bad" alt="x">` yields zero
blocks, and with a `<p>x</p>` sibling only the paragraph survives. -/
theorem claim_C6_invalid_image :
    (∀ (attrs : List (String × String)) (cs : List HtmlNode),
      isValidUrl ((attrOf (HtmlNode.element "img" attrs cs) "src").getD "") = false →
        processImage (.element "img" attrs cs) = [])
    ∧ parseHtmlToBlocks c6Body = []
    ∧ parseHtmlToBlocks c6SiblingBody = [Block.paragraph "x" "left"]
    ∧ isValidUrl "ftp://bad" = false := by
  refine ⟨?_, rfl, rfl, rfl⟩
  intro attrs cs h
  simp [processImage, h]

/-- Witness for C6 at the `ftp://bad` image element. -/
theorem claim_C6_invalid_image_witness :
    processImage (.element "img" [("src", "ftp://bad"), ("alt", "x")] []) = [] :=
  claim_C6_invalid_image.1 [("src", "ftp://bad"), ("alt", "x")] [] rfl

/-- The claim's per-variant non-emptiness criteria. -/
def blockNonEmptySpec : Block → Prop
  | .paragraph content _ => jsTrim content ≠ ""
  | .heading content _ _ => jsTrim content ≠ ""
  | .quote content _ => jsTrim content ≠ ""
  | .callout content _ _ => jsTrim content ≠ ""
  | .code code _ => jsTrim code ≠ ""
  | .image src _ _ _ => src ≠ ""
  | .divider _ => True
  | .columns _ cols => ∃ col ∈ cols, col ≠ []

/-- C8: every block returned by `parseHtmlToBlocks` is non-empty under the
per-variant criteria (whitespace-only rich text, whitespace-only code,
empty image source, all-empty column lists), and divider blocks are never
considered empty by the filter. -/
theorem claim_C8_no_empty_blocks :
    (∀ (body : List HtmlNode) (b : Block), b ∈ parseHtmlToBlocks body → blockNonEmptySpec b)
    ∧ (∀ style, isEmptyBlock (Block.divider style) = false) := by
  constructor
  · intro body b hb
    unfold parseHtmlToBlocks at hb
    have hf : isEmptyBlock b = false := by
      have := (List.mem_filter.mp hb).2
      simpa using this
    cases b <;> simp_all [isEmptyBlock, blockNonEmptySpec]
  · intro style
    rfl

/-- Witness for C8: the paragraph parsed from `<p>Hi</p>` is non-empty. -/
theorem claim_C8_no_empty_blocks_witness :
    blockNonEmptySpec (Block.paragraph "Hi" "left") :=
  claim_C8_no_empty_blocks.1 [.element "p" [] [.text "Hi"]]
    (Block.paragraph "Hi" "left") (by decide)

def isHtmlParsedKind : Block → Bool
  | .paragraph _ _ => true
  | .heading _ _ _ => true
  | .quote _ _ => true
  | .code _ _ => true
  | .divider _ => true
  | .image _ _ _ _ => true
  | .callout _ _ _ => false
  | .columns _ _ => false

theorem processTable_kind (e : HtmlNode) (b : Block)
    (hb : b ∈ processTable e) : isHtmlParsedKind b = true := by
  unfold processTable at hb
  rw [List.mem_flatMap] at hb
  obtain ⟨row, _, hb⟩ := hb
  dsimp only at hb
  split at hb
  · split at hb
    · simp at hb
      subst hb
      rfl
    · simp at hb
  · simp at hb


theorem processHeading_kind (e : HtmlNode) (lvl : String) (b : Block)
    (hb : b ∈ processHeading e lvl) : isHtmlParsedKind b = true := by
  simp [processHeading] at hb
  subst hb
  rfl

theorem processBlockquote_kind (e : HtmlNode) (b : Block)
    (hb : b ∈ processBlockquote e) : isHtmlParsedKind b = true := by
  unfold processBlockquote at hb
  split at hb <;> (simp at hb; subst hb; rfl)

theorem processPreBlock_kind (e : HtmlNode) (b : Block)
    (hb : b ∈ processPreBlock e) : isHtmlParsedKind b = true := by
  simp [processPreBlock] at hb
  subst hb
  rfl

theorem processImage_kind (e : HtmlNode) (b : Block)
    (hb : b ∈ processImage e) : isHtmlParsedKind b = true := by
  simp only [processImage] at hb
  split at hb <;> simp at hb
  subst hb
  rfl



set_option maxHeartbeats 1000000 in
theorem walk_kinds :
    (∀ (parent : String) (n : HtmlNode),
      ∀ b ∈ processNode parent n, isHtmlParsedKind b = true)
    ∧ (∀ (parent : String) (l : List HtmlNode),
      ∀ b ∈ processChildren parent l, isHtmlParsedKind b = true) := by
  apply @processNode.mutual_induct
    (fun parent n => ∀ b ∈ processNode parent n, isHtmlParsedKind b = true)
    (fun parent l => ∀ b ∈ processChildren parent l, isHtmlParsedKind b = true) <;>
    (intros; rename_i b hb) <;>
    (try simp [processNode, processChildren, List.mem_append, *] at hb)
  all_goals try (first
    | exact processHeading_kind _ _ _ hb
    | exact processBlockquote_kind _ _ hb
    | exact processPreBlock_kind _ _ hb
    | exact processImage_kind _ _ hb
    | exact processTable_kind _ _ hb
    | (subst hb; rfl)
    | (simp_all; done)
    | (rcases hb with h | h <;> simp_all; done)
    | (split at hb <;> (simp at hb; subst hb; rfl))
    | (split at hb <;> simp_all; done)
    | (simp_all; rfl))
  all_goals try (repeat' (split at hb))
  all_goals first
    | exact processTable_kind _ _ hb
    | (simp at hb; subst hb; rfl)
    | (simp at hb; done)
    | rfl
    | (subst hb; rfl)
    | (simp_all; done)

/-- C10: every block produced by `parseHtmlToBlocks` has kind paragraph,
heading, quote, code, divider or image — the HTML parser never produces
callout or columns blocks — and `parsePlainTextToBlocks` produces only
paragraph blocks. -/
theorem claim_C10_closed_kinds :
    (∀ (body : List HtmlNode) (b : Block),
      b ∈ parseHtmlToBlocks body → isHtmlParsedKind b = true)
    ∧ (∀ (text : String) (b : Block), b ∈ parsePlainTextToBlocks text →
      ∃ content align, b = Block.paragraph content align) := by
  constructor
  · intro body b hb
    unfold parseHtmlToBlocks at hb
    have hm := (List.mem_filter.mp hb).1
    rw [List.mem_flatMap] at hm
    obtain ⟨n, _, hn⟩ := hm
    exact walk_kinds.1 "body" n b hn
  · intro text b hb
    unfold parsePlainTextToBlocks at hb
    split at hb
    · simp at hb
    · rw [List.mem_map] at hb
      obtain ⟨para, _, hp⟩ := hb
      exact ⟨_, _, hp.symm⟩

/-- Witness for C10 at concrete inputs for both parsers. -/
theorem claim_C10_closed_kinds_witness :
    isHtmlParsedKind (Block.paragraph "Hi" "left") = true
    ∧ ∃ content align, Block.paragraph "Tom &amp; Jerry" "left" = Block.paragraph content align :=
  ⟨claim_C10_closed_kinds.1 [.element "p" [] [.text "Hi"]]
      (Block.paragraph "Hi" "left") (by decide),
   claim_C10_closed_kinds.2 "Tom & Jerry"
      (Block.paragraph "Tom &amp; Jerry" "left") (by decide)⟩

/-! ## Sanitizer idempotence and script stripping (C1, C2) -/

theorem filter_attrAllowed_idem (l : List (String × String)) :
    (l.filter attrAllowed).filter attrAllowed = l.filter attrAllowed :=
  List.filter_eq_self.mpr (fun a ha => (List.mem_filter.mp ha).2)

theorem needsNoopener_append_rel (tag : String) (kept : List (String × String)) :
    needsNoopener tag (kept ++ [("rel", "noopener")]) = false := by
  unfold needsNoopener
  simp [List.any_append]

theorem sanitizeAttrs_idem (tag : String) (attrs : List (String × String)) :
    sanitizeAttrs tag (sanitizeAttrs tag attrs) = sanitizeAttrs tag attrs := by
  unfold sanitizeAttrs
  by_cases hc : needsNoopener tag (attrs.filter attrAllowed) = true
  · rw [if_pos hc]
    have h2 : (attrs.filter attrAllowed ++ [("rel", "noopener")]).filter attrAllowed
        = attrs.filter attrAllowed ++ [("rel", "noopener")] := by
      rw [List.filter_append, filter_attrAllowed_idem]
      rfl
    rw [h2, needsNoopener_append_rel]
    simp
  · rw [if_neg hc, filter_attrAllowed_idem]
    rw [if_neg hc]

mutual

theorem sanitizeNode_idem : ∀ n : HtmlNode, (sanitizeNode n).bind sanitizeNode = sanitizeNode n
  | .text s => rfl
  | .element tag attrs cs => by
    by_cases h : tag ∈ ALLOWED_TAGS
    · simp [sanitizeNode, h, sanitizeAttrs_idem, sanitizeList_idem cs]
    · simp [sanitizeNode, h]

theorem sanitizeList_idem : ∀ l : List HtmlNode, sanitizeList (sanitizeList l) = sanitizeList l
  | [] => rfl
  | n :: t => by
    have hn := sanitizeNode_idem n
    cases hc : sanitizeNode n with
    | none => simp [sanitizeList, hc, sanitizeList_idem t]
    | some m =>
      rw [hc] at hn
      simp only [Option.some_bind] at hn
      simp [sanitizeList, hc, hn, sanitizeList_idem t]

end

mutual

/-- The input with every `script` element (payload included) removed;
`none` marks a removed node. -/
def removeScriptsN : HtmlNode → Option HtmlNode
  | .text s => some (.text s)
  | .element tag attrs cs =>
    if tag = "script" then none else some (.element tag attrs (removeScriptsL cs))

def removeScriptsL : List HtmlNode → List HtmlNode
  | [] => []
  | n :: t =>
    match removeScriptsN n with
    | none => removeScriptsL t
    | some m => m :: removeScriptsL t

end

mutual

/-- No `script` element occurs anywhere in the subtree. -/
def scriptFreeN : HtmlNode → Bool
  | .text _ => true
  | .element tag _ cs => !(tag = "script") && scriptFreeL cs

def scriptFreeL : List HtmlNode → Bool
  | [] => true
  | n :: t => scriptFreeN n && scriptFreeL t

end

mutual

theorem sanitizeNode_removeScripts :
    ∀ n : HtmlNode, (removeScriptsN n).bind sanitizeNode = sanitizeNode n
  | .text s => rfl
  | .element tag attrs cs => by
    by_cases hs : tag = "script"
    · subst hs
      simp [removeScriptsN, sanitizeNode, (by decide : "script" ∉ ALLOWED_TAGS)]
    · simp [removeScriptsN, hs, sanitizeNode, sanitizeList_removeScripts cs]

theorem sanitizeList_removeScripts :
    ∀ l : List HtmlNode, sanitizeList (removeScriptsL l) = sanitizeList l
  | [] => rfl
  | n :: t => by
    have hn := sanitizeNode_removeScripts n
    cases hr : removeScriptsN n with
    | none =>
      rw [hr] at hn
      simp only [Option.none_bind] at hn
      simp [removeScriptsL, hr, sanitizeList, ← hn, sanitizeList_removeScripts t]
    | some m =>
      rw [hr] at hn
      simp only [Option.some_bind] at hn
      simp [removeScriptsL, hr, sanitizeList, hn, sanitizeList_removeScripts t]

end

mutual

theorem sanitizeNode_scriptFree :
    ∀ (n m : HtmlNode), sanitizeNode n = some m → scriptFreeN m = true
  | .text s, m => by
    intro h
    simp only [sanitizeNode, Option.some.injEq] at h
    subst h
    rfl
  | .element tag attrs cs, m => by
    intro h
    simp only [sanitizeNode] at h
    split at h
    · rename_i hallowed
      obtain rfl : HtmlNode.element tag (sanitizeAttrs tag attrs) (sanitizeList cs) = m :=
        Option.some.inj h
      have hs : tag ≠ "script" := by
        intro he
        subst he
        exact absurd hallowed (by decide)
      simp [scriptFreeN, hs, sanitizeList_scriptFree cs]
    · exact absurd h (by simp)

theorem sanitizeList_scriptFree :
    ∀ l : List HtmlNode, scriptFreeL (sanitizeList l) = true
  | [] => rfl
  | n :: t => by
    cases hc : sanitizeNode n with
    | none => simp [sanitizeList, hc, sanitizeList_scriptFree t]
    | some m =>
      simp [sanitizeList, hc, scriptFreeL, sanitizeNode_scriptFree n m hc,
        sanitizeList_scriptFree t]

end

/-- C2: sanitisation is idempotent — sanitising already-sanitised output is
a no-op, for every input tree. -/
theorem claim_C2_sanitize_idempotent (body : List HtmlNode) :
    sanitizeList (sanitizeList body) = sanitizeList body :=
  sanitizeList_idem body

/-- C1 (amended): sanitisation removes every `script` element together with
its entire payload — `parseHtmlToBlocks` returns the same block list as on
the input with all `script` elements removed, and no `script` element
survives sanitisation.  (The claim as stated — no returned block's content
contains the script's payload text — fails when the same text also occurs
as legitimate content elsewhere; see the counterexample.) -/
theorem claim_C1_scripts_stripped (body : List HtmlNode) :
    parseHtmlToBlocks body = parseHtmlToBlocks (removeScriptsL body)
    ∧ scriptFreeL (sanitizeList body) = true := by
  constructor
  · unfold parseHtmlToBlocks
    rw [sanitizeList_removeScripts]
  · exact sanitizeList_scriptFree body

/-- C1 counterexample: for the input `<p>Hi</p><script>Hi</script>` — which
contains a script element whose payload text is "Hi" — the parse yields
exactly one block, and that block's content does contain the payload text,
refuting the claim as stated. -/
theorem claim_C1_counterexample :
    (findSelL (fun t => t = "script") c1CounterexampleBody).map textContent = some "Hi"
    ∧ (parseHtmlToBlocks c1CounterexampleBody).map
        (fun b => strContainsSub (blockContent b) "Hi") = [true] :=
  ⟨rfl, rfl⟩

/-! ## Plain-text parsing properties (C7) -/

theorem strLenPos_decide (x : String) : (decide (x.length > 0)) = decide (x ≠ "") := by
  cases x with
  | mk data =>
    cases data with
    | nil => rfl
    | cons c cs => simp [String.length, String.ext_iff]

theorem filter_ne_empty_eq (l : List String) :
    l.filter (fun s => s.length > 0) = l.filter (fun s => s ≠ "") := by
  induction l with
  | nil => rfl
  | cons x t ih => simp [List.filter_cons, strLenPos_decide, ih]

/-- Whether `PARAGRAPH_BOUNDARY_REGEX` matches anywhere in the text. -/
def hasBoundary : List Char → Bool
  | [] => false
  | c :: t => (matchBoundaryAt (c :: t)).isSome || hasBoundary t

theorem splitLoop_no_boundary :
    ∀ (fuel : Nat) (l acc : List Char), hasBoundary l = false →
      splitLoop fuel l acc = [⟨acc.reverse ++ l⟩] := by
  intro fuel
  induction fuel with
  | zero =>
    intro l acc h
    cases l with
    | nil => simp [splitLoop]
    | cons c t => rfl
  | succ fuel ih =>
    intro l acc h
    cases l with
    | nil => simp [splitLoop]
    | cons c t =>
      unfold hasBoundary at h
      rw [Bool.or_eq_false_iff] at h
      obtain ⟨h1, h2⟩ := h
      cases hm : matchBoundaryAt (c :: t) with
      | some n =>
        rw [hm] at h1
        simp at h1
      | none =>
        simp [splitLoop, hm, ih t (c :: acc) h2]

/-- C7: `parsePlainTextToBlocks` splits at blank-line boundaries, trims and
drops empty segments, HTML-escapes the five special characters before
replacing each remaining (optionally `\r`-preceded) newline with `<br>`,
and emits one paragraph per surviving segment in source order.  An input
with no blank-line boundary and non-whitespace content yields exactly one
paragraph with every newline replaced by `<br>`, and the quote/ampersand
scenario escapes as `It&#39;s &quot;fine&quot; &amp; good`. -/
theorem claim_C7_plaintext :
    (∀ text : String, jsTrim text ≠ "" →
      parsePlainTextToBlocks text
        = (((splitParagraphBoundary text).map jsTrim).filter (fun p => p ≠ "")).map
            (fun para => Block.paragraph (brReplace (escapeHtml para)) "left"))
    ∧ (∀ text : String, jsTrim text ≠ "" → hasBoundary text.data = false →
      parsePlainTextToBlocks text
        = [Block.paragraph (brReplace (escapeHtml (jsTrim text))) "left"])
    ∧ parsePlainTextToBlocks "It's \"fine\" & good"
        = [Block.paragraph "It&#39;s &quot;fine&quot; &amp; good" "left"] := by
  have key : ∀ text : String, jsTrim text ≠ "" →
      parsePlainTextToBlocks text
        = (((splitParagraphBoundary text).map jsTrim).filter (fun p => p ≠ "")).map
            (fun para => Block.paragraph (brReplace (escapeHtml para)) "left") := by
    intro text h
    unfold parsePlainTextToBlocks
    rw [if_neg h, filter_ne_empty_eq]
  refine ⟨key, fun text h hnb => ?_, rfl⟩
  rw [key text h]
  have hsplit : splitParagraphBoundary text = [⟨text.data⟩] := by
    unfold splitParagraphBoundary
    rw [splitLoop_no_boundary _ _ _ hnb]
    simp
  have htext : (⟨text.data⟩ : String) = text := by
    cases text
    rfl
  rw [hsplit, htext]
  simp [h]

/-- Witness for C7 at the input "Line one\nLine two" (single newline, no
blank line). -/
theorem claim_C7_plaintext_witness :
    parsePlainTextToBlocks "Line one\nLine two"
      = [Block.paragraph (brReplace (escapeHtml (jsTrim "Line one\nLine two"))) "left"]
    ∧ brReplace (escapeHtml (jsTrim "Line one\nLine two")) = "Line one<br>Line two" :=
  ⟨claim_C7_plaintext.2.1 "Line one\nLine two" (by decide) (by decide), rfl⟩

/-! ## Renderer properties (C9) -/

theorem renderChildList_map (fuel : Nat) (g : String → Option Block) (ids : List String) :
    renderChildList fuel g ids
      = ids.map (fun id =>
          match g id with
          | none => ""
          | some b => blockToHtml fuel b g) := by
  induction ids with
  | nil => simp [renderChildList]
  | cons id t ih => simp [renderChildList, ih]

theorem filter_map_resolve (g : String → Option Block) (r : Block → String) (ids : List String) :
    ((ids.map (fun id =>
        match g id with
        | none => ""
        | some b => r b)).filter (fun s => s ≠ ""))
      = (((ids.filterMap g).map r).filter (fun s => s ≠ "")) := by
  induction ids with
  | nil => rfl
  | cons id t ih =>
    cases hg : g id with
    | none => simp_all [List.filterMap_cons]
    | some v =>
      simp only [List.map_cons, List.filterMap_cons, hg]
      rw [List.filter_cons, List.filter_cons, ih]

/-- C9: rendering a columns block renders each column as the recursive
rendering of its resolved child blocks joined in order, silently skipping
child ids the resolver cannot find (they are not rendered as placeholders);
a column whose content comes out empty renders the "Empty column"
placeholder; `documentToHtml` renders `rootBlockIds` in order, skips ids
missing from the block map, and returns the empty string when
`rootBlockIds` is empty. -/
theorem claim_C9_renderer :
    (∀ (fuel : Nat) (layout : String) (cols : List (List String)) (g : String → Option Block),
      blockToHtml (fuel + 1) (Block.columns layout cols) g = renderColumns fuel layout cols g)
    ∧ (∀ (fuel : Nat) (g : String → Option Block) (ids : List String),
      columnContent fuel g ids
        = sJoin "\n" (((ids.filterMap g).map (fun b => blockToHtml fuel b g)).filter
            (fun s => s ≠ "")))
    ∧ (∀ (fuel : Nat) (g : String → Option Block) (basis : String),
      renderColumnDiv basis (columnContent fuel g [])
        = "<div class=\"px-2\" style=\"flex-basis: " ++ basis ++ "; min-width: 0;\">\n  "
          ++ "<p class=\"text-gray-400 italic\">Empty column</p>" ++ "\n</div>")
    ∧ (∀ (fuel : Nat) (i t ca ua : String) (bs : List (String × Block)),
      documentToHtml fuel ⟨i, t, bs, [], ca, ua⟩ = "")
    ∧ (∀ (fuel : Nat) (doc : BlockDocument),
      documentToHtml fuel doc
        = sJoin "\n" (((doc.rootBlockIds.filterMap (getBlockOf doc)).map
            (fun b => blockToHtml fuel b (getBlockOf doc))).filter (fun s => s ≠ ""))) := by
  have hcol : ∀ (fuel : Nat) (g : String → Option Block) (ids : List String),
      columnContent fuel g ids
        = sJoin "\n" (((ids.filterMap g).map (fun b => blockToHtml fuel b g)).filter
            (fun s => s ≠ "")) := by
    intro fuel g ids
    simp only [columnContent, renderChildList_map]
    rw [filter_map_resolve]
  refine ⟨?_, hcol, ?_, ?_, ?_⟩
  · intro fuel layout cols g
    simp [blockToHtml]
  · intro fuel g basis
    rw [hcol]
    simp [renderColumnDiv, sJoin]
  · intro fuel i t ca ua bs
    rfl
  · intro fuel doc
    unfold documentToHtml
    rw [filter_map_resolve]
